import Mathlib

set_option maxRecDepth 100000

/-!
Verification of the nutanix-api-client submission pipeline.

Shallow embedding of the core modules:
* `nutanix_client/handlers/api_client.py`  — `APIClient.post_purchase_order`,
  `validate_response`, `save_response`, `extract_po_number`;
* `nutanix_client/handlers/xml_transformer.py` — `XMLTransformer.transform_string`,
  `_has_soap_envelope`, `_wrap_with_soap`;
* `nutanix_client/utils/archiver.py` — `FileArchiver.cleanup_old_archives`;
* `nutanix_client/cli.py` — `NutanixAPIClient.process_file`.

External collaborators (the `requests` transport, the `lxml` parser/serializer,
the filesystem and the wall clock) are modelled as explicit oracles: each HTTP
attempt's observed outcome, the parse result of a response body, the
parse-validity and reserialization functions of the XML library, directory
listings, and formatted timestamps are inputs to the Lean functions.  The
Python code's own control flow and string handling are translated directly.
-/

namespace NutanixClient

/-- Substring containment, the model of Python's `needle in haystack`:
the needle's character list is a contiguous infix of the haystack's. -/
def StrContains (hay needle : String) : Prop :=
  needle.data <:+: hay.data

instance (hay needle : String) : Decidable (StrContains hay needle) :=
  List.decidableInfix needle.data hay.data

/-- Boolean form of `StrContains`, used where the Python code branches on
a substring test. -/
def strContainsSub (hay needle : String) : Bool :=
  decide (StrContains hay needle)

theorem strContains_of_append_right {b : String} (a n : String)
    (h : StrContains b n) : StrContains (a ++ b) n := by
  obtain ⟨s, t, hst⟩ := h
  exact ⟨a.data ++ s, t, by simp [← hst, List.append_assoc]⟩

theorem strContains_of_append_left {a : String} (b n : String)
    (h : StrContains a n) : StrContains (a ++ b) n := by
  obtain ⟨s, t, hst⟩ := h
  exact ⟨s, t ++ b.data, by simp [← hst, List.append_assoc]⟩

theorem strContains_middle (a n b : String) : StrContains (a ++ n ++ b) n :=
  ⟨a.data, b.data, by simp⟩

theorem strContains_empty (hay : String) : StrContains hay "" :=
  ⟨[], hay.data, by simp⟩

/-- The whitespace class removed by Python's `str.strip` (ASCII view). -/
def isPyWhitespace (c : Char) : Bool :=
  c = ' ' || c = '\t' || c = '\n' || c = '\r' || c = '\x0b' || c = '\x0c'

/-- Python's `str.strip()`: drop leading and trailing whitespace. -/
def strStrip (s : String) : String :=
  ⟨((s.data.dropWhile isPyWhitespace).reverse.dropWhile isPyWhitespace).reverse⟩

/-- Python's `str.rstrip()`: drop trailing whitespace. -/
def strRStrip (s : String) : String :=
  ⟨(s.data.reverse.dropWhile isPyWhitespace).reverse⟩

/-- Python's `str.lower()` (ASCII view, enough for the fixed status
vocabulary compared against). -/
def strLower (s : String) : String :=
  ⟨s.data.map Char.toLower⟩

/-- Python's `s.split('\n')`: split at every newline, keeping empty pieces. -/
def splitLinesAux : List Char → List Char → List String
  | [], acc => [⟨acc.reverse⟩]
  | c :: rest, acc =>
    if c = '\n' then ⟨acc.reverse⟩ :: splitLinesAux rest []
    else splitLinesAux rest (c :: acc)

/-- Python's `s.split('\n')` on a string. -/
def splitLines (s : String) : List String :=
  splitLinesAux s.data []

/-- Python's `'\n'.join(lines)`. -/
def joinLines : List String → String
  | [] => ""
  | [l] => l
  | l :: m :: rest => l ++ "\n" ++ joinLines (m :: rest)

/-! ## XML response trees

`validate_response` inspects the response body after `lxml` has parsed it.
The parsed document is modelled as a tree of elements, each carrying its
namespace URI, local name, optional text, and children (in document order).
A response body that fails to parse is modelled as `none`. -/

/-- A parsed XML element: namespace URI, local name, text content, children. -/
structure XElem where
  ns : String
  name : String
  text : Option String
  children : List XElem

/-- The fixed validation namespace from `api_client.py` (`ns1`). -/
def nutanixNS : String :=
  "http://www.nutanix.com/schemas/Services/Data/NTNXPartnerPO.xsd"

mutual

/-- All strict descendants of one element, in document (pre-)order. -/
def preorderDesc : XElem → List XElem
  | ⟨_, _, _, children⟩ => preorderDescList children

/-- Each listed element followed by its strict descendants, in document
(pre-)order.  Applied to `root.children` this models the candidate set
scanned by an `.//` ElementPath step. -/
def preorderDescList : List XElem → List XElem
  | [] => []
  | c :: rest => c :: (preorderDesc c ++ preorderDescList rest)

end

/-- Children of `e` with namespace `nutanixNS` and local name `n`. -/
def childrenNamed (e : XElem) (n : String) : List XElem :=
  e.children.filter (fun c => c.ns == nutanixNS && c.name == n)

/-- Follow a chain of child steps below `e` (the `/ns1:a/ns1:b` tail of an
ElementPath expression), returning all matches in document order. -/
def chainFind (e : XElem) : List String → List XElem
  | [] => [e]
  | n :: rest => (childrenNamed e n).flatMap (fun c => chainFind c rest)

/-- Model of `root.find('.//ns1:n₁/ns1:n₂/…', ns)`: first match, in document order,
of a descendant named `n₁` followed by the chain of child steps. -/
def findDesc (root : XElem) : List String → Option XElem
  | [] => none
  | n :: rest =>
    (((preorderDescList root.children).filter
        (fun e => e.ns == nutanixNS && e.name == n)).flatMap
      (fun e => chainFind e rest)).head?

/-- Python's `elem.text.strip() if elem.text else ""` idiom (an absent or
empty text is falsy; otherwise the text is stripped). -/
def textOrEmpty : Option String → String
  | none => ""
  | some t => if t = "" then "" else strStrip t

/-- Text of the `TransactionID` sub-element extracted on rejection. -/
def txIdOf (root : XElem) : String :=
  textOrEmpty ((findDesc root ["Response", "TransactionID"]).bind XElem.text)

/-- Text of the `fault/Errorcode` sub-element extracted on rejection. -/
def errCodeOf (root : XElem) : String :=
  textOrEmpty ((findDesc root ["Response", "fault", "Errorcode"]).bind XElem.text)

/-- Text of the `fault/Errordetail` sub-element extracted on rejection. -/
def errDetailOf (root : XElem) : String :=
  textOrEmpty ((findDesc root ["Response", "fault", "Errordetail"]).bind XElem.text)

/-- The rejection message built by `validate_response` (`api_client.py`
lines 213–221): header plus one line per non-empty detail. -/
def rejectedMsg (transactionId errorCode errorDetail : String) : String :=
  "Purchase Order REJECTED by Nutanix API\n"
    ++ (if transactionId ≠ "" then "  Transaction ID: " ++ transactionId ++ "\n" else "")
    ++ (if errorCode ≠ "" then "  Error Code: " ++ errorCode ++ "\n" else "")
    ++ (if errorDetail ≠ "" then "  Error Detail: " ++ errorDetail
        else "  No error details provided")

/-- Whether the parsed response carries a `Response/TxStatus` element whose
stripped text is `rejected` case-insensitively. -/
def rejectedTx (root : XElem) : Bool :=
  match findDesc root ["Response", "TxStatus"] with
  | some el => strLower (textOrEmpty el.text) == "rejected"
  | none => false

/-- Predicate `rejectedTx` lifted to a possibly-unparseable response. -/
def rejectedResponse : Option XElem → Bool
  | some root => rejectedTx root
  | none => false

/-- Model of `APIClient.validate_response`: returns `some errorMessage` when the
method raises `APIError`, `none` when it returns normally.  A parse failure
(`parsed = none`), a missing `TxStatus`, a recognized success status and an
unknown status are all warnings only. -/
def validate_response : Option XElem → Option String
  | none => none
  | some root =>
    match findDesc root ["Response", "TxStatus"] with
    | some el =>
      let txStatus := textOrEmpty el.text
      if strLower txStatus = "rejected" then
        some (rejectedMsg (txIdOf root) (errCodeOf root) (errDetailOf root))
      else if strLower txStatus == "received" || strLower txStatus == "accepted"
          || strLower txStatus == "pending" then
        none
      else
        none
    | none => none

/-! ## The HTTP retry loop

`post_purchase_order` performs up to `max_retries` attempts.  What each
attempt observes (an HTTP response, a `Timeout`, a `ConnectionError`, or
another `RequestException`) is an oracle indexed by the 0-based attempt
number.  The trace records the result, the number of attempts made, and the
list of `time.sleep` durations performed. -/

/-- What one `requests.post` attempt observes.  For an HTTP response the
`parsed` field is the `lxml` parse result of `text` used by
`validate_response`. -/
inductive AttemptOutcome where
  | http (status : Nat) (text : String) (parsed : Option XElem)
  | timeout
  | connError (msg : String)
  | reqError (msg : String)

instance instDecEqExcept {ε α : Type} [DecidableEq ε] [DecidableEq α] : DecidableEq (Except ε α)
  | .ok a, .ok b =>
    match decEq a b with
    | isTrue h => isTrue (h ▸ rfl)
    | isFalse h => isFalse (fun hh => h (Except.ok.inj hh))
  | .ok _, .error _ => isFalse (fun hh => Except.noConfusion hh)
  | .error _, .ok _ => isFalse (fun hh => Except.noConfusion hh)
  | .error e, .error f =>
    match decEq e f with
    | isTrue h => isTrue (h ▸ rfl)
    | isFalse h => isFalse (fun hh => h (Except.error.inj hh))

/-- Result of a `post_purchase_order` call: the returned body or the
`APIError` message, the number of attempts made, and the sleeps performed. -/
structure PostTrace where
  result : Except String String
  attempts : Nat
  sleeps : List Nat
deriving DecidableEq

def msg401 : String :=
  "Authentication failed (HTTP 401). Check JWT token configuration."

def msg403 : String :=
  "Access forbidden (HTTP 403). Check customer ID and permissions."

def msg400 (text : String) : String :=
  "Bad request (HTTP 400). Invalid XML or request format.\nResponse: " ++ text.take 500

def msgServer (status : Nat) (text : String) : String :=
  "Server error (HTTP " ++ toString status ++ "). Response: " ++ text.take 200

def msgUnexpected (status : Nat) (text : String) : String :=
  "Unexpected response (HTTP " ++ toString status ++ "): " ++ text.take 500

def msgTimeout (timeoutSec : Nat) : String :=
  "Request timeout after " ++ toString timeoutSec ++ " seconds"

def msgConn (e : String) : String := "Connection error: " ++ e

def msgReqFail (e : String) : String := "HTTP request failed: " ++ e

def msgExhausted : String := "Request failed after all retry attempts"

/-- The body of the `while attempt < self.max_retries` loop of
`post_purchase_order` (`api_client.py` lines 68–161).  `attemptsDone` is the
Python `attempt` counter before the increment at the top of the iteration;
`fuel` equals `maxRetries - attemptsDone` at every call and only drives
termination — the loop guard is the literal `attemptsDone < maxRetries`
test.  Both exits without a pending raise produce the `last_error` /
fallback `APIError` of lines 158–161. -/
def post_aux (outcomes : Nat → AttemptOutcome) (maxRetries retryDelay timeoutSec : Nat) :
    Nat → Nat → List Nat → Option String → PostTrace
  | 0, attemptsDone, sleeps, lastError =>
    ⟨.error (lastError.getD msgExhausted), attemptsDone, sleeps⟩
  | fuel + 1, attemptsDone, sleeps, lastError =>
    if attemptsDone < maxRetries then
      match outcomes attemptsDone with
      | .http status text parsed =>
        if status = 401 then ⟨.error msg401, attemptsDone + 1, sleeps⟩
        else if status = 403 then ⟨.error msg403, attemptsDone + 1, sleeps⟩
        else if status = 400 then ⟨.error (msg400 text), attemptsDone + 1, sleeps⟩
        else if 500 ≤ status then
          if attemptsDone + 1 < maxRetries then
            post_aux outcomes maxRetries retryDelay timeoutSec fuel (attemptsDone + 1)
              (sleeps ++ [retryDelay]) (some (msgServer status text))
          else ⟨.error (msgServer status text), attemptsDone + 1, sleeps⟩
        else if status ≠ 200 then ⟨.error (msgUnexpected status text), attemptsDone + 1, sleeps⟩
        else
          match validate_response parsed with
          | some errMsg => ⟨.error errMsg, attemptsDone + 1, sleeps⟩
          | none => ⟨.ok text, attemptsDone + 1, sleeps⟩
      | .timeout =>
        if attemptsDone + 1 < maxRetries then
          post_aux outcomes maxRetries retryDelay timeoutSec fuel (attemptsDone + 1)
            (sleeps ++ [retryDelay]) (some (msgTimeout timeoutSec))
        else ⟨.error (msgTimeout timeoutSec), attemptsDone + 1, sleeps⟩
      | .connError e =>
        if attemptsDone + 1 < maxRetries then
          post_aux outcomes maxRetries retryDelay timeoutSec fuel (attemptsDone + 1)
            (sleeps ++ [retryDelay]) (some (msgConn e))
        else ⟨.error (msgConn e), attemptsDone + 1, sleeps⟩
      | .reqError e => ⟨.error (msgReqFail e), attemptsDone + 1, sleeps⟩
    else
      ⟨.error (lastError.getD msgExhausted), attemptsDone, sleeps⟩

/-- Model of `APIClient.post_purchase_order` under the attempt-outcome oracle. -/
def post_purchase_order (outcomes : Nat → AttemptOutcome)
    (maxRetries retryDelay timeoutSec : Nat) : PostTrace :=
  post_aux outcomes maxRetries retryDelay timeoutSec maxRetries 0 [] none

/-- Transient outcomes: HTTP 5xx, timeout, connection failure — exactly the
cases the loop retries. -/
def isTransientOutcome : AttemptOutcome → Bool
  | .http status _ _ => 500 ≤ status
  | .timeout => true
  | .connError _ => true
  | .reqError _ => false

/-- Outcomes the loop fails on immediately without sleeping: any non-200,
non-5xx HTTP status and any transport exception that is neither a timeout
nor a connection failure. -/
def isImmediateTerminal : AttemptOutcome → Bool
  | .http status _ _ => status ≠ 200 && status < 500
  | .reqError _ => true
  | _ => false

theorem post_aux_transient_step (outcomes : Nat → AttemptOutcome) (mR rD tS : Nat)
    (a : Nat) (s : List Nat) (le : Option String)
    (htr : isTransientOutcome (outcomes a) = true) (ha1 : a + 1 < mR) :
    ∃ m : String,
      post_aux outcomes mR rD tS (mR - a) a s le =
        post_aux outcomes mR rD tS (mR - (a + 1)) (a + 1) (s ++ [rD]) (some m) := by
  obtain ⟨f, hf⟩ : ∃ f, mR - a = f + 1 := ⟨mR - a - 1, by omega⟩
  have hfa : f = mR - (a + 1) := by omega
  rw [hf, hfa]
  cases houtcome : outcomes a with
  | http status text parsed =>
    rw [houtcome] at htr
    simp only [isTransientOutcome, decide_eq_true_eq] at htr
    refine ⟨msgServer status text, ?_⟩
    simp only [post_aux, houtcome]
    rw [if_pos (by omega : a < mR), if_neg (by omega : ¬ status = 401),
      if_neg (by omega : ¬ status = 403), if_neg (by omega : ¬ status = 400),
      if_pos htr, if_pos ha1]
  | timeout =>
    refine ⟨msgTimeout tS, ?_⟩
    simp only [post_aux, houtcome]
    rw [if_pos (by omega : a < mR), if_pos ha1]
  | connError e =>
    refine ⟨msgConn e, ?_⟩
    simp only [post_aux, houtcome]
    rw [if_pos (by omega : a < mR), if_pos ha1]
  | reqError e =>
    rw [houtcome] at htr
    simp [isTransientOutcome] at htr

theorem post_aux_skip (outcomes : Nat → AttemptOutcome) (mR rD tS : Nat) :
    ∀ (k a : Nat) (s : List Nat) (le : Option String),
      (∀ i, a ≤ i → i < a + k → isTransientOutcome (outcomes i) = true) →
      a + k < mR →
      ∃ le2 : Option String,
        post_aux outcomes mR rD tS (mR - a) a s le =
          post_aux outcomes mR rD tS (mR - (a + k)) (a + k) (s ++ List.replicate k rD) le2 := by
  intro k
  induction k with
  | zero => intro a s le _ _; exact ⟨le, by simp⟩
  | succ k ih =>
    intro a s le htrans hlt
    obtain ⟨m, hm⟩ := post_aux_transient_step outcomes mR rD tS a s le
      (htrans a (Nat.le_refl a) (by omega)) (by omega)
    obtain ⟨le2, h2⟩ := ih (a + 1) (s ++ [rD]) (some m)
      (fun i h1 h2 => htrans i (by omega) (by omega)) (by omega)
    refine ⟨le2, ?_⟩
    rw [hm, h2, show a + 1 + k = a + (k + 1) by omega]
    simp [List.replicate_succ]

/-- **C1.** With every attempt observing a transient result (HTTP 5xx,
timeout, or connection failure), `post_purchase_order` makes exactly
`max_retries` attempts, sleeping `retry_delay` between consecutive attempts
(`max_retries - 1` sleeps), and then fails with an `APIError`; after an
HTTP 401 it fails on the first attempt with no further retries and no
sleep. -/
theorem claim1_retry_policy (outcomes : Nat → AttemptOutcome) (mR rD tS : Nat) :
    ((∀ i, i < mR → isTransientOutcome (outcomes i) = true) →
      ∃ msg, post_purchase_order outcomes mR rD tS =
        ⟨.error msg, mR, List.replicate (mR - 1) rD⟩) ∧
    (∀ text parsed, outcomes 0 = .http 401 text parsed → 1 ≤ mR →
      post_purchase_order outcomes mR rD tS = ⟨.error msg401, 1, []⟩) := by
  constructor
  · intro htrans
    unfold post_purchase_order
    match mR with
    | 0 => exact ⟨msgExhausted, rfl⟩
    | m + 1 =>
      obtain ⟨le2, hskip⟩ := post_aux_skip outcomes (m + 1) rD tS m 0 [] none
        (fun i _ h2 => htrans i (by omega)) (by omega)
      simp only [Nat.sub_zero, Nat.zero_add, List.nil_append] at hskip
      rw [show (m + 1 : Nat) - m = 0 + 1 from by omega] at hskip
      rw [hskip]
      simp only [Nat.succ_sub_one]
      have htr := htrans m (by omega)
      cases houtcome : outcomes m with
      | http status text parsed =>
        rw [houtcome] at htr
        simp only [isTransientOutcome, decide_eq_true_eq] at htr
        refine ⟨msgServer status text, ?_⟩
        simp only [post_aux, houtcome]
        rw [if_pos (by omega : m < m + 1), if_neg (by omega : ¬ status = 401),
          if_neg (by omega : ¬ status = 403), if_neg (by omega : ¬ status = 400),
          if_pos htr, if_neg (by omega : ¬ m + 1 < m + 1)]
      | timeout =>
        refine ⟨msgTimeout tS, ?_⟩
        simp only [post_aux, houtcome]
        rw [if_pos (by omega : m < m + 1), if_neg (by omega : ¬ m + 1 < m + 1)]
      | connError e =>
        refine ⟨msgConn e, ?_⟩
        simp only [post_aux, houtcome]
        rw [if_pos (by omega : m < m + 1), if_neg (by omega : ¬ m + 1 < m + 1)]
      | reqError e =>
        rw [houtcome] at htr
        simp [isTransientOutcome] at htr
  · intro text parsed h0 hmr
    unfold post_purchase_order
    obtain ⟨f, hf⟩ : ∃ f, mR = f + 1 := ⟨mR - 1, by omega⟩
    rw [hf]
    simp only [post_aux, h0]
    rw [if_pos (by omega : 0 < f + 1)]
    simp

/-- **C1 witness.** Three timeouts exhaust the default three attempts with
two sleeps; a 401 fails on the first attempt with no sleep. -/
theorem claim1_retry_policy_witness :
    (∃ msg, post_purchase_order (fun _ => .timeout) 3 5 30 =
      ⟨.error msg, 3, List.replicate 2 5⟩) ∧
    post_purchase_order (fun _ => .http 401 "" none) 3 5 30 = ⟨.error msg401, 1, []⟩ :=
  ⟨(claim1_retry_policy (fun _ => .timeout) 3 5 30).1 (by decide),
   (claim1_retry_policy (fun _ => .http 401 "" none) 3 5 30).2 "" none rfl (by omega)⟩

/-- **C4.** After any run of transient attempts, an attempt observing
HTTP 401/403/400, any other non-200 non-5xx status, or a transport-level
exception that is neither a timeout nor a connection failure makes
`post_purchase_order` fail immediately: no further attempt and no further
sleep happen after it. -/
theorem claim4_immediate_terminal (outcomes : Nat → AttemptOutcome) (mR rD tS k : Nat)
    (htrans : ∀ i, i < k → isTransientOutcome (outcomes i) = true)
    (hk : k < mR)
    (hterm : isImmediateTerminal (outcomes k) = true) :
    ∃ msg, post_purchase_order outcomes mR rD tS =
      ⟨.error msg, k + 1, List.replicate k rD⟩ := by
  unfold post_purchase_order
  obtain ⟨le2, hskip⟩ := post_aux_skip outcomes mR rD tS k 0 [] none
    (fun i _ h2 => htrans i (by omega)) (by omega)
  simp only [Nat.sub_zero, Nat.zero_add, List.nil_append] at hskip
  rw [hskip]
  obtain ⟨f, hf⟩ : ∃ f, mR - k = f + 1 := ⟨mR - k - 1, by omega⟩
  rw [hf]
  cases houtcome : outcomes k with
  | http status text parsed =>
    rw [houtcome] at hterm
    simp only [isImmediateTerminal, Bool.and_eq_true, decide_eq_true_eq] at hterm
    obtain ⟨h200, h500⟩ := hterm
    by_cases h401 : status = 401
    · refine ⟨msg401, ?_⟩
      simp only [post_aux, houtcome]
      rw [if_pos hk, if_pos h401]
    · by_cases h403 : status = 403
      · refine ⟨msg403, ?_⟩
        simp only [post_aux, houtcome]
        rw [if_pos hk, if_neg h401, if_pos h403]
      · by_cases h400 : status = 400
        · refine ⟨msg400 text, ?_⟩
          simp only [post_aux, houtcome]
          rw [if_pos hk, if_neg h401, if_neg h403, if_pos h400]
        · refine ⟨msgUnexpected status text, ?_⟩
          simp only [post_aux, houtcome]
          rw [if_pos hk, if_neg h401, if_neg h403, if_neg h400,
            if_neg (by omega : ¬ 500 ≤ status), if_pos h200]
  | timeout =>
    rw [houtcome] at hterm
    simp [isImmediateTerminal] at hterm
  | connError e =>
    rw [houtcome] at hterm
    simp [isImmediateTerminal] at hterm
  | reqError e =>
    refine ⟨msgReqFail e, ?_⟩
    simp only [post_aux, houtcome]
    rw [if_pos hk]

/-- **C4 witness.** A 404 response on the first attempt (the default
configuration) fails immediately with one attempt and no sleep. -/
theorem claim4_immediate_terminal_witness :
    ∃ msg, post_purchase_order (fun _ => .http 404 "not found" none) 3 5 30 =
      ⟨.error msg, 0 + 1, List.replicate 0 5⟩ :=
  claim4_immediate_terminal (fun _ => .http 404 "not found" none) 3 5 30 0
    (by omega) (by omega) (by decide)

theorem strContains_suffix (a n : String) : StrContains (a ++ n) n :=
  ⟨a.data, [], by simp⟩

theorem rejectedMsg_contains_txId (tid ec ed : String) :
    StrContains (rejectedMsg tid ec ed) tid := by
  by_cases htid : tid = ""
  · rw [htid]; exact strContains_empty _
  · unfold rejectedMsg
    rw [if_pos htid]
    exact strContains_of_append_left _ _ (strContains_of_append_left _ _
      (strContains_of_append_right _ _ (strContains_middle "  Transaction ID: " tid "\n")))

theorem rejectedMsg_contains_errCode (tid ec ed : String) :
    StrContains (rejectedMsg tid ec ed) ec := by
  by_cases hec : ec = ""
  · rw [hec]; exact strContains_empty _
  · unfold rejectedMsg
    rw [if_pos hec]
    exact strContains_of_append_left _ _
      (strContains_of_append_right _ _ (strContains_middle "  Error Code: " ec "\n"))

theorem rejectedMsg_contains_errDetail (tid ec ed : String) :
    StrContains (rejectedMsg tid ec ed) ed := by
  by_cases hed : ed = ""
  · rw [hed]; exact strContains_empty _
  · unfold rejectedMsg
    rw [if_pos hed]
    exact strContains_of_append_right _ _ (strContains_suffix "  Error Detail: " ed)

theorem validate_response_rejected (root : XElem) (hrej : rejectedTx root = true) :
    validate_response (some root) =
      some (rejectedMsg (txIdOf root) (errCodeOf root) (errDetailOf root)) := by
  unfold rejectedTx at hrej
  simp only [validate_response]
  cases hfd : findDesc root ["Response", "TxStatus"] with
  | none => rw [hfd] at hrej; exact absurd hrej (by simp)
  | some el =>
    rw [hfd] at hrej
    simp only [beq_iff_eq] at hrej
    simp [hrej]

theorem validate_response_not_rejected (parsed : Option XElem)
    (h : rejectedResponse parsed = false) : validate_response parsed = none := by
  cases parsed with
  | none => rfl
  | some root =>
    have h' : rejectedTx root = false := h
    unfold rejectedTx at h'
    simp only [validate_response]
    cases hfd : findDesc root ["Response", "TxStatus"] with
    | none => rfl
    | some el =>
      rw [hfd] at h'
      simp only [beq_eq_false_iff_ne, ne_eq] at h'
      simp [h']

/-- **C3.** An HTTP 200 response whose parsed body carries a
`Response/TxStatus` equal to `rejected` (case-insensitively, after
stripping) makes `post_purchase_order` fail terminally on that attempt —
one attempt, no sleep — with the rejection message, which contains the
extracted `TransactionID`, `Errorcode` and `Errordetail` values. -/
theorem claim3_rejected_terminal (outcomes : Nat → AttemptOutcome) (mR rD tS : Nat)
    (root : XElem) (text : String)
    (hmr : 1 ≤ mR) (h0 : outcomes 0 = .http 200 text (some root))
    (hrej : rejectedTx root = true) :
    post_purchase_order outcomes mR rD tS =
      ⟨.error (rejectedMsg (txIdOf root) (errCodeOf root) (errDetailOf root)), 1, []⟩ ∧
    StrContains (rejectedMsg (txIdOf root) (errCodeOf root) (errDetailOf root)) (txIdOf root) ∧
    StrContains (rejectedMsg (txIdOf root) (errCodeOf root) (errDetailOf root)) (errCodeOf root) ∧
    StrContains (rejectedMsg (txIdOf root) (errCodeOf root) (errDetailOf root)) (errDetailOf root) := by
  obtain ⟨f, hf⟩ : ∃ f, mR = f + 1 := ⟨mR - 1, by omega⟩
  subst hf
  refine ⟨?_, rejectedMsg_contains_txId _ _ _, rejectedMsg_contains_errCode _ _ _,
    rejectedMsg_contains_errDetail _ _ _⟩
  unfold post_purchase_order
  simp only [post_aux, h0]
  rw [if_pos (by omega : 0 < f + 1), if_neg (by omega : ¬ 200 = 401),
    if_neg (by omega : ¬ 200 = 403), if_neg (by omega : ¬ 200 = 400),
    if_neg (by omega : ¬ 500 ≤ 200), if_neg (by omega : ¬ 200 ≠ 200),
    validate_response_rejected root hrej]

/-- Concrete rejected response tree used to witness C3: `TxStatus` is
`Rejected` with `TransactionID`, `Errorcode` and `Errordetail` supplied. -/
def sampleRejectedRoot : XElem :=
  ⟨nutanixNS, "DistiPODataRs", none,
    [⟨nutanixNS, "Response", none,
      [⟨nutanixNS, "TxStatus", some "Rejected", []⟩,
       ⟨nutanixNS, "TransactionID", some "TX42", []⟩,
       ⟨nutanixNS, "fault", none,
         [⟨nutanixNS, "Errorcode", some "E100", []⟩,
          ⟨nutanixNS, "Errordetail", some "Invalid PO", []⟩]⟩]⟩]⟩

/-- **C3 witness.** On the concrete rejected response the submission fails
on the first attempt and the message contains both supplied fault values. -/
theorem claim3_rejected_terminal_witness :
    rejectedTx sampleRejectedRoot = true ∧
    (post_purchase_order (fun _ => .http 200 "resp" (some sampleRejectedRoot)) 3 5 30 =
      ⟨.error (rejectedMsg (txIdOf sampleRejectedRoot) (errCodeOf sampleRejectedRoot)
        (errDetailOf sampleRejectedRoot)), 1, []⟩ ∧
     StrContains (rejectedMsg (txIdOf sampleRejectedRoot) (errCodeOf sampleRejectedRoot)
        (errDetailOf sampleRejectedRoot)) (txIdOf sampleRejectedRoot) ∧
     StrContains (rejectedMsg (txIdOf sampleRejectedRoot) (errCodeOf sampleRejectedRoot)
        (errDetailOf sampleRejectedRoot)) (errCodeOf sampleRejectedRoot) ∧
     StrContains (rejectedMsg (txIdOf sampleRejectedRoot) (errCodeOf sampleRejectedRoot)
        (errDetailOf sampleRejectedRoot)) (errDetailOf sampleRejectedRoot)) :=
  ⟨by decide,
   claim3_rejected_terminal (fun _ => .http 200 "resp" (some sampleRejectedRoot)) 3 5 30
     sampleRejectedRoot "resp" (by omega) rfl (by decide)⟩

/-- **C8.** An HTTP 200 response whose application transaction status is
not `rejected` — including an absent `TxStatus` element, an unrecognized
status value, and a body that fails to parse — makes `post_purchase_order`
succeed on that attempt and return the raw body. -/
theorem claim8_non_rejected_success (outcomes : Nat → AttemptOutcome) (mR rD tS : Nat)
    (text : String) (parsed : Option XElem)
    (hmr : 1 ≤ mR) (h0 : outcomes 0 = .http 200 text parsed)
    (hnr : rejectedResponse parsed = false) :
    post_purchase_order outcomes mR rD tS = ⟨.ok text, 1, []⟩ := by
  obtain ⟨f, hf⟩ : ∃ f, mR = f + 1 := ⟨mR - 1, by omega⟩
  subst hf
  unfold post_purchase_order
  simp only [post_aux, h0]
  rw [if_pos (by omega : 0 < f + 1), if_neg (by omega : ¬ 200 = 401),
    if_neg (by omega : ¬ 200 = 403), if_neg (by omega : ¬ 200 = 400),
    if_neg (by omega : ¬ 500 ≤ 200), if_neg (by omega : ¬ 200 ≠ 200),
    validate_response_not_rejected parsed hnr]

/-- Concrete response tree with an unrecognized `TxStatus` value, used to
witness C8. -/
def sampleUnknownStatusRoot : XElem :=
  ⟨nutanixNS, "DistiPODataRs", none,
    [⟨nutanixNS, "Response", none,
      [⟨nutanixNS, "TxStatus", some "Processing", []⟩]⟩]⟩

/-- **C8 witness.** An unrecognized status `Processing` is treated as
success and the raw body is returned on the first attempt. -/
theorem claim8_non_rejected_success_witness :
    rejectedResponse (some sampleUnknownStatusRoot) = false ∧
    post_purchase_order (fun _ => .http 200 "rawbody" (some sampleUnknownStatusRoot)) 3 5 30 =
      ⟨.ok "rawbody", 1, []⟩ :=
  ⟨by decide,
   claim8_non_rejected_success (fun _ => .http 200 "rawbody" (some sampleUnknownStatusRoot))
     3 5 30 "rawbody" (some sampleUnknownStatusRoot) (by omega) rfl (by decide)⟩

/-! ## XML transformer

`XMLTransformer.transform_string` validates the input, returns it unchanged
when a SOAP envelope marker is present, and otherwise wraps it in the fixed
`SOAP_TEMPLATE`.  The `lxml` library is the oracle `XmlLib`: `valid s`
models `etree.fromstring(s)` succeeding (`_is_valid_xml`), `reserialize s`
models `etree.tostring(etree.fromstring(s), encoding='unicode',
pretty_print=True)`. -/

/-- The `lxml` facilities used by the transformer. -/
structure XmlLib where
  valid : String → Bool
  reserialize : String → String

/-- Model of `XMLTransformer._has_soap_envelope`: substring presence of any of the
three known envelope markers anywhere in the document. -/
def has_soap_envelope (s : String) : Bool :=
  strContainsSub s "soap:Envelope" || strContainsSub s "soapenv:Envelope"
    || strContainsSub s "SOAP-ENV:Envelope"

/-- Template `SOAP_TEMPLATE` up to the `content` placeholder (which sits on its own
line, so the head ends with the newline before it). -/
def soapTemplateHead : String :=
  "<?xml version=\"1.0\" encoding=\"UTF-8\"?>\n<soapenv:Envelope xmlns:soapenv=\"http://schemas.xmlsoap.org/soap/envelope/\"\n    xmlns:tns=\"http://www.boomi.com/connector/wss\"\n    xmlns:ns1=\"http://www.nutanix.com/schemas/Services/Data/NTNXPartnerPO.xsd\">\n    <soapenv:Header />\n    <soapenv:Body>\n        <tns:GetPurchaseOrder>\n"

/-- Template `SOAP_TEMPLATE` after the `content` placeholder. -/
def soapTemplateTail : String :=
  "\n        </tns:GetPurchaseOrder>\n    </soapenv:Body>\n</soapenv:Envelope>"

/-- One line of the indentation comprehension of `_wrap_with_soap`:
`'            ' + line if line.strip() else line` (twelve spaces). -/
def indentLine (line : String) : String :=
  if strStrip line ≠ "" then "            " ++ line else line

/-- The indented content spliced into the template: split into lines,
indent every non-blank line by twelve spaces, re-join, `rstrip`. -/
def indentContent (c : String) : String :=
  strRStrip (joinLines ((splitLines c).map indentLine))

/-- Model of `XMLTransformer._wrap_with_soap`, reached only after `_is_valid_xml`
succeeded on `s`: re-serialize the parsed input, indent it, splice it into
`SOAP_TEMPLATE`, and self-check the generated envelope. -/
def wrap_with_soap (lib : XmlLib) (s : String) : Except String String :=
  if lib.valid (soapTemplateHead ++ indentContent (lib.reserialize s) ++ soapTemplateTail) then
    .ok (soapTemplateHead ++ indentContent (lib.reserialize s) ++ soapTemplateTail)
  else
    .error "Failed to wrap XML with SOAP envelope: Generated SOAP XML is invalid"

/-- Model of `XMLTransformer.transform_string`. -/
def transform_string (lib : XmlLib) (s : String) : Except String String :=
  if ¬ lib.valid s = true then .error "Invalid XML syntax"
  else if has_soap_envelope s = true then .ok s
  else wrap_with_soap lib s

theorem soapTemplateHead_contains_marker :
    StrContains soapTemplateHead "soapenv:Envelope" := by decide

theorem wrap_output_has_envelope (lib : XmlLib) (s y : String)
    (h : wrap_with_soap lib s = .ok y) : has_soap_envelope y = true := by
  unfold wrap_with_soap at h
  by_cases hX : lib.valid
      (soapTemplateHead ++ indentContent (lib.reserialize s) ++ soapTemplateTail) = true
  · rw [if_pos hX] at h
    have hy := Except.ok.inj h
    have hc : StrContains y "soapenv:Envelope" := by
      rw [← hy]
      exact strContains_of_append_left _ _ (strContains_of_append_left _ _
        soapTemplateHead_contains_marker)
    unfold has_soap_envelope strContainsSub
    rw [decide_eq_true hc]
    simp
  · rw [if_neg hX] at h
    cases h

theorem wrap_output_valid (lib : XmlLib) (s y : String)
    (h : wrap_with_soap lib s = .ok y) : lib.valid y = true := by
  unfold wrap_with_soap at h
  by_cases hX : lib.valid
      (soapTemplateHead ++ indentContent (lib.reserialize s) ++ soapTemplateTail) = true
  · rw [if_pos hX] at h
    rw [← Except.ok.inj h]
    exact hX
  · rw [if_neg hX] at h
    cases h

/-- **C5.** For a well-formed input, `transform_string` returns the input
unchanged exactly when one of the three envelope markers is present, and
it is idempotent: whatever output it produces is returned unchanged when
transformed again (an already-wrapped document is never re-wrapped). -/
theorem claim5_identity_and_idempotence (lib : XmlLib) (s : String)
    (hv : lib.valid s = true) :
    ((transform_string lib s = .ok s) ↔ has_soap_envelope s = true) ∧
    (∀ y, transform_string lib s = .ok y → transform_string lib y = .ok y) := by
  constructor
  · constructor
    · intro hok
      by_contra hmar
      rw [Bool.not_eq_true] at hmar
      unfold transform_string at hok
      rw [if_neg (by simp [hv]), if_neg (by simp [hmar])] at hok
      have hy := wrap_output_has_envelope lib s s hok
      rw [hy] at hmar
      cases hmar
    · intro hmar
      unfold transform_string
      rw [if_neg (by simp [hv]), if_pos hmar]
  · intro y hok
    by_cases hmar : has_soap_envelope s = true
    · have hys : y = s := by
        unfold transform_string at hok
        rw [if_neg (by simp [hv]), if_pos hmar] at hok
        exact (Except.ok.inj hok).symm
      subst hys
      unfold transform_string
      rw [if_neg (by simp [hv]), if_pos hmar]
    · rw [Bool.not_eq_true] at hmar
      unfold transform_string at hok
      rw [if_neg (by simp [hv]), if_neg (by simp [hmar])] at hok
      have hy := wrap_output_has_envelope lib s y hok
      have hvy := wrap_output_valid lib s y hok
      unfold transform_string
      rw [if_neg (by simp [hvy]), if_pos hy]

/-- Concrete `XmlLib` used by the transformer witnesses: everything parses
and reserialization yields a fixed pretty-printed document. -/
def libSample : XmlLib :=
  ⟨fun _ => true, fun _ => "<DistiPODataRq>\n  <DistiPONumber>PO7</DistiPONumber>\n</DistiPODataRq>\n"⟩

/-- **C5 witness.** On a document without a marker the identity
characterization holds, and the wrapped output of a transform is itself
transformed to itself (idempotence at the produced output). -/
theorem claim5_identity_and_idempotence_witness :
    libSample.valid "<DistiPODataRq/>" = true ∧
    ((transform_string libSample "<DistiPODataRq/>" = .ok "<DistiPODataRq/>") ↔
      has_soap_envelope "<DistiPODataRq/>" = true) ∧
    transform_string libSample
        (soapTemplateHead ++ indentContent (libSample.reserialize "<DistiPODataRq/>")
          ++ soapTemplateTail) =
      .ok (soapTemplateHead ++ indentContent (libSample.reserialize "<DistiPODataRq/>")
          ++ soapTemplateTail) :=
  ⟨rfl, (claim5_identity_and_idempotence libSample "<DistiPODataRq/>" rfl).1,
   (claim5_identity_and_idempotence libSample "<DistiPODataRq/>" rfl).2 _ (by decide)⟩

/-- **C6.** For a well-formed input without an envelope whose generated
envelope passes the self-check, `transform_string` produces exactly the
fixed template with the re-serialized input spliced in, and the
indentation comprehension prefixes every non-blank line of the serialized
content with exactly twelve spaces. -/
theorem claim6_template_output (lib : XmlLib) (s : String)
    (hv : lib.valid s = true) (hm : has_soap_envelope s = false)
    (hg : lib.valid (soapTemplateHead ++ indentContent (lib.reserialize s)
      ++ soapTemplateTail) = true) :
    transform_string lib s =
      .ok (soapTemplateHead ++ indentContent (lib.reserialize s) ++ soapTemplateTail) ∧
    ∀ line ∈ splitLines (lib.reserialize s), strStrip line ≠ "" →
      ("            " ++ line) ∈ (splitLines (lib.reserialize s)).map indentLine := by
  constructor
  · unfold transform_string wrap_with_soap
    rw [if_neg (by simp [hv]), if_neg (by simp [hm]), if_pos hg]
  · intro line hmem hnb
    have hil : indentLine line = "            " ++ line := by
      unfold indentLine
      rw [if_pos hnb]
    rw [← hil]
    exact List.mem_map_of_mem _ hmem

/-- **C6 witness.** On a concrete document the transform output is the
template with the indented serialization spliced in. -/
theorem claim6_template_output_witness :
    libSample.valid "<DistiPODataRq/>" = true ∧
    has_soap_envelope "<DistiPODataRq/>" = false ∧
    transform_string libSample "<DistiPODataRq/>" =
      .ok (soapTemplateHead ++ indentContent (libSample.reserialize "<DistiPODataRq/>")
        ++ soapTemplateTail) :=
  ⟨rfl, by decide,
   (claim6_template_output libSample "<DistiPODataRq/>" rfl (by decide) rfl).1⟩

/-! ## The pipeline: `NutanixAPIClient.process_file`

The four stages (JWT generation, transform, submission, response saving)
are oracles giving each stage's outcome for this run; the function returns
the exit code and the list of archive moves performed.  Per the spec's
data-model invariant the archive moves themselves succeed (`shutil.move`
does not crash), which is how `cli.py` can archive in every handler. -/

/-- Which archive directory received the input file. -/
inductive ArchiveDest where
  | success
  | failure
deriving DecidableEq

/-- Stage outcomes for one `process_file` run: `validateOk` models
`validate_xml_file`; the four `Except`s model `generate_token`,
`transform_file`, `post_purchase_order` and `save_response`, carrying the
raised error message on failure. -/
structure StageOutcomes where
  validateOk : Bool
  jwt : Except String String
  transform : Except String String
  post : Except String String
  save : Except String Unit

def EXIT_SUCCESS : Nat := 0
def EXIT_CONFIG_ERROR : Nat := 1
def EXIT_AUTH_ERROR : Nat := 2
def EXIT_API_ERROR : Nat := 3
def EXIT_NETWORK_ERROR : Nat := 4

/-- Mapping of `cli.py` lines 153–159: map an `APIError` message to an exit code by
substring tests. -/
def exitCodeForAPIError (msg : String) : Nat :=
  if strContainsSub msg "Authentication" || strContainsSub msg "401" then EXIT_AUTH_ERROR
  else if strContainsSub msg "Connection" || strContainsSub msg "Timeout" then EXIT_NETWORK_ERROR
  else EXIT_API_ERROR

/-- Model of `NutanixAPIClient.process_file` (`cli.py` lines 107–196): each stage
failure is logged, the input file is archived to the failure directory with
the error message, and a stage-specific exit code is returned; a
`validate_xml_file` failure and a `save_response` failure reach the
top-level generic handler, which also archives to the failure directory.
The returned list records the archive moves in order. -/
def process_file (o : StageOutcomes) : Nat × List (ArchiveDest × Option String) :=
  if o.validateOk = false then
    (EXIT_CONFIG_ERROR, [(.failure, some "Input file validation failed")])
  else
    match o.jwt with
    | .error e => (EXIT_AUTH_ERROR, [(.failure, some e)])
    | .ok _ =>
      match o.transform with
      | .error e => (EXIT_CONFIG_ERROR, [(.failure, some e)])
      | .ok _ =>
        match o.post with
        | .error e => (exitCodeForAPIError e, [(.failure, some e)])
        | .ok _ =>
          match o.save with
          | .error e => (EXIT_CONFIG_ERROR, [(.failure, some e)])
          | .ok _ => (EXIT_SUCCESS, [(.success, none)])

theorem exitCodeForAPIError_ne_success (msg : String) :
    exitCodeForAPIError msg ≠ EXIT_SUCCESS := by
  unfold exitCodeForAPIError
  split_ifs <;> decide

theorem exitCodeForAPIError_ne_zero (msg : String) : ¬ exitCodeForAPIError msg = 0 := by
  have h := exitCodeForAPIError_ne_success msg
  simpa [EXIT_SUCCESS] using h

/-- **C2.** Every `process_file` run performs exactly one archive move:
a run exits with success exactly when the input file went to the success
archive, and every failing run moves the file to the failure archive
together with the error text. -/
theorem claim2_exactly_one_archive (o : StageOutcomes) :
    (process_file o).2.length = 1 ∧
    ((process_file o).1 = EXIT_SUCCESS ↔ (process_file o).2 = [(.success, none)]) ∧
    ((process_file o).1 ≠ EXIT_SUCCESS → ∃ m, (process_file o).2 = [(.failure, some m)]) := by
  obtain ⟨v, jwt, tr, post, save⟩ := o
  cases v <;> cases jwt <;> cases tr <;> cases post <;> cases save <;>
    simp [process_file, exitCodeForAPIError_ne_zero,
      EXIT_SUCCESS, EXIT_CONFIG_ERROR, EXIT_AUTH_ERROR]

/-- **C2 witness.** A run failing at submission archives once to the
failure directory with the message; a fully successful run archives once
to the success directory. -/
theorem claim2_exactly_one_archive_witness :
    ((process_file ⟨true, .ok "tok", .ok "xml", .error "boom", .ok ()⟩).2.length = 1 ∧
      ∃ m, (process_file ⟨true, .ok "tok", .ok "xml", .error "boom", .ok ()⟩).2 =
        [(.failure, some m)]) ∧
    (process_file ⟨true, .ok "tok", .ok "xml", .ok "resp", .ok ()⟩).2 = [(.success, none)] :=
  ⟨⟨(claim2_exactly_one_archive ⟨true, .ok "tok", .ok "xml", .error "boom", .ok ()⟩).1,
    (claim2_exactly_one_archive ⟨true, .ok "tok", .ok "xml", .error "boom", .ok ()⟩).2.2
      (by decide)⟩,
   (claim2_exactly_one_archive ⟨true, .ok "tok", .ok "xml", .ok "resp", .ok ()⟩).2.1.mp rfl⟩

/-! ## `FileArchiver.cleanup_old_archives`

A directory listing (`glob('*')`, non-recursive) is a list of entries with
their `is_file()` status, modification time and size.  `datetime.now() -
timedelta(days=days)` is the cutoff instant; times are seconds. -/

/-- One entry of a non-recursive directory listing. -/
structure FsEntry where
  isFile : Bool
  mtime : Int
  size : Nat
deriving DecidableEq

/-- Value `cutoff_date = datetime.now() - timedelta(days=days)` in seconds. -/
def cutoffFor (now : Int) (days : Nat) : Int := now - days * 86400

/-- The per-directory loop of `cleanup_old_archives`: skip non-files, skip
entries at or after the cutoff; for an eligible file either report it (dry
run) or delete it, counting it and its size.  Returns the count, the bytes
freed and the surviving listing. -/
def cleanupDir (cutoff : Int) (dryRun : Bool) : List FsEntry → Nat × Nat × List FsEntry
  | [] => (0, 0, [])
  | e :: rest =>
    let r := cleanupDir cutoff dryRun rest
    if e.isFile = false then (r.1, r.2.1, e :: r.2.2)
    else if e.mtime < cutoff then
      if dryRun then (r.1, r.2.1, e :: r.2.2)
      else (r.1 + 1, r.2.1 + e.size, r.2.2)
    else (r.1, r.2.1, e :: r.2.2)

/-- Model of `FileArchiver.cleanup_old_archives`: scan the success directory then
the error directory, returning `(files_deleted, size_freed)` and the two
surviving listings. -/
def cleanup_old_archives (cutoff : Int) (dryRun : Bool)
    (successDir errorDir : List FsEntry) : Nat × Nat × List FsEntry × List FsEntry :=
  ((cleanupDir cutoff dryRun successDir).1 + (cleanupDir cutoff dryRun errorDir).1,
   (cleanupDir cutoff dryRun successDir).2.1 + (cleanupDir cutoff dryRun errorDir).2.1,
   (cleanupDir cutoff dryRun successDir).2.2,
   (cleanupDir cutoff dryRun errorDir).2.2)

/-- Eligibility for deletion: a regular file strictly older than the cutoff. -/
def shouldDelete (cutoff : Int) (e : FsEntry) : Bool :=
  e.isFile && decide (e.mtime < cutoff)

theorem cleanupDir_eq (cutoff : Int) (l : List FsEntry) :
    cleanupDir cutoff false l =
      ((l.filter (shouldDelete cutoff)).length,
       ((l.filter (shouldDelete cutoff)).map FsEntry.size).sum,
       l.filter (fun e => !(shouldDelete cutoff e))) := by
  induction l with
  | nil => rfl
  | cons e rest ih =>
    obtain ⟨isF, mt, sz⟩ := e
    cases isF
    · simp [cleanupDir, ih, shouldDelete, List.filter_cons]
    · by_cases hm : mt < cutoff
      · simp [cleanupDir, ih, shouldDelete, hm, List.filter_cons]
        omega
      · simp [cleanupDir, ih, shouldDelete, hm, List.filter_cons]

theorem cleanupDir_no_eligible (cutoff : Int) (l : List FsEntry)
    (h : ∀ e ∈ l, shouldDelete cutoff e = false) :
    cleanupDir cutoff false l = (0, 0, l) := by
  rw [cleanupDir_eq]
  have h1 : l.filter (shouldDelete cutoff) = [] := by
    rw [List.filter_eq_nil_iff]
    intro e he
    simp [h e he]
  have h2 : l.filter (fun e => !(shouldDelete cutoff e)) = l := by
    rw [List.filter_eq_self]
    intro e he
    simp [h e he]
  rw [h1, h2]
  simp

/-- **C9.** With `dry_run = False`, `cleanup_old_archives` deletes exactly
the regular files of the two non-recursively scanned archive directories
whose modification time is strictly before the cutoff — non-files and
entries at or after the cutoff all survive — returning the exact count and
byte total of the deleted files; run again on the surviving listings with
the same cutoff it deletes 0 files and 0 bytes. -/
theorem claim9_cleanup (now : Int) (days : Nat) (successDir errorDir : List FsEntry) :
    cleanup_old_archives (cutoffFor now days) false successDir errorDir =
      ((successDir.filter (shouldDelete (cutoffFor now days))).length
         + (errorDir.filter (shouldDelete (cutoffFor now days))).length,
       ((successDir.filter (shouldDelete (cutoffFor now days))).map FsEntry.size).sum
         + ((errorDir.filter (shouldDelete (cutoffFor now days))).map FsEntry.size).sum,
       successDir.filter (fun e => !(shouldDelete (cutoffFor now days) e)),
       errorDir.filter (fun e => !(shouldDelete (cutoffFor now days) e))) ∧
    cleanup_old_archives (cutoffFor now days) false
        (successDir.filter (fun e => !(shouldDelete (cutoffFor now days) e)))
        (errorDir.filter (fun e => !(shouldDelete (cutoffFor now days) e))) =
      (0, 0,
       successDir.filter (fun e => !(shouldDelete (cutoffFor now days) e)),
       errorDir.filter (fun e => !(shouldDelete (cutoffFor now days) e))) := by
  constructor
  · unfold cleanup_old_archives
    rw [cleanupDir_eq, cleanupDir_eq]
  · unfold cleanup_old_archives
    rw [cleanupDir_no_eligible _ _ (fun e he => by
        have := (List.mem_filter.mp he).2
        simpa using this),
      cleanupDir_no_eligible _ _ (fun e he => by
        have := (List.mem_filter.mp he).2
        simpa using this)]
    rfl

/-! ## `APIClient.save_response`

The filesystem and the clock are oracles: `mkdirOk` models
`output_path.mkdir(parents=True, exist_ok=True)` succeeding, `writeOk` the
file write succeeding; any failure is re-raised as `APIError`.
`localTimestamp` is `time.strftime("%Y%m%d_%H%M%S")` — Python's
`time.strftime` formats the current **local** time when no time tuple is
passed — while `utcTimestamp` is what a UTC clock would format at the same
instant, carried only so the spec's naming claim can be stated. -/

/-- Filesystem/clock oracle for one `save_response` call. -/
structure SaveEnv where
  mkdirOk : Bool
  writeOk : Bool
  localTimestamp : String
  utcTimestamp : String

/-- Model of `APIClient.save_response` (`api_client.py` lines 254–291). -/
def save_response (env : SaveEnv) (outputPath : String)
    (poNumber : Option String) : Except String String :=
  if env.mkdirOk = false then .error "Failed to save response: mkdir failed"
  else
    match poNumber with
    | some po =>
      if po = "" then
        if env.writeOk = false then .error "Failed to save response: write failed"
        else .ok (outputPath ++ "/" ++ ("response_" ++ env.localTimestamp ++ ".xml"))
      else
        if env.writeOk = false then .error "Failed to save response: write failed"
        else .ok (outputPath ++ "/" ++ ("response_" ++ po ++ ".xml"))
    | none =>
      if env.writeOk = false then .error "Failed to save response: write failed"
      else .ok (outputPath ++ "/" ++ ("response_" ++ env.localTimestamp ++ ".xml"))

/-- **C10 counterexample.** At an instant where local time and UTC differ
(here UTC+6 behind local zero), a save without a correlation id writes
`response_<local timestamp>.xml`, not `response_<UTC timestamp>.xml` as the
claim states: `time.strftime` with no time tuple formats local time. -/
theorem claim10_counterexample :
    save_response ⟨true, true, "20250101_000000", "20250101_060000"⟩ "output" none =
      .ok ("output" ++ "/" ++ ("response_" ++ "20250101_000000" ++ ".xml")) ∧
    save_response ⟨true, true, "20250101_000000", "20250101_060000"⟩ "output" none ≠
      .ok ("output" ++ "/" ++ ("response_" ++ "20250101_060000" ++ ".xml")) := by
  constructor
  · decide
  · decide

/-- **C10 amended.** `save_response` writes `response_<po>.xml` when a
non-empty correlation id is supplied and `response_<LOCAL timestamp
YYYYMMDD_HHMMSS>.xml` otherwise, returns the written path, and fails with
an `APIError` when the write or the directory creation fails. -/
theorem claim10_amended (env : SaveEnv) (dir : String) :
    (env.mkdirOk = true → env.writeOk = true → ∀ po, po ≠ "" →
      save_response env dir (some po) = .ok (dir ++ "/" ++ ("response_" ++ po ++ ".xml"))) ∧
    (env.mkdirOk = true → env.writeOk = true →
      save_response env dir none =
        .ok (dir ++ "/" ++ ("response_" ++ env.localTimestamp ++ ".xml"))) ∧
    (env.mkdirOk = true → env.writeOk = false → ∀ po,
      save_response env dir po = .error "Failed to save response: write failed") ∧
    (env.mkdirOk = false → ∀ po,
      save_response env dir po = .error "Failed to save response: mkdir failed") := by
  refine ⟨?_, ?_, ?_, ?_⟩
  · intro hm hw po hpo
    simp [save_response, hm, hw, hpo]
  · intro hm hw
    simp [save_response, hm, hw]
  · intro hm hw po
    cases po with
    | none => simp [save_response, hm, hw]
    | some po => by_cases hpo : po = "" <;> simp [save_response, hm, hw, hpo]
  · intro hm po
    cases po <;> simp [save_response, hm]

/-- **C10 amended witness.** A save with id `PO123` writes
`response_PO123.xml`; a failing write raises the `APIError`. -/
theorem claim10_amended_witness :
    save_response ⟨true, true, "20250101_120000", "20250101_120000"⟩ "out" (some "PO123") =
      .ok ("out" ++ "/" ++ ("response_" ++ "PO123" ++ ".xml")) ∧
    save_response ⟨true, false, "20250101_120000", "20250101_120000"⟩ "out" none =
      .error "Failed to save response: write failed" :=
  ⟨(claim10_amended ⟨true, true, "20250101_120000", "20250101_120000"⟩ "out").1
      rfl rfl "PO123" (by decide),
   (claim10_amended ⟨true, false, "20250101_120000", "20250101_120000"⟩ "out").2.2.1
      rfl rfl none⟩

/-! ## `APIClient.extract_po_number`

The regex `<(?:\w+:)?DistiPONumber>([^<]+)</(?:\w+:)?DistiPONumber>` is
searched with `re.search` and **no** `re.IGNORECASE` flag, so the element
name matches case-sensitively.  The pattern is deterministic, which the
model exploits: the greedy optional `\w+:` group can consume characters
only when the maximal word-character run is followed by `:` (a shorter run
would end at a word character, and when that run is followed by `:` the
empty alternative cannot make the rest match either), and the greedy
`[^<]+` group must stop exactly at the next `<`.  `re.search` returns the
leftmost match.  `\w` is modelled as ASCII `[A-Za-z0-9_]`.  The function
never raises: it is total, returning `none` on no match. -/

/-- Word characters `\w` (ASCII view). -/
def isWordChar (c : Char) : Bool := c.isAlphanum || c = '_'

/-- Match a literal at the head of the input, returning the rest. -/
def dropLit : List Char → List Char → Option (List Char)
  | [], l => some l
  | _ :: _, [] => none
  | c :: cs, x :: xs => if c = x then dropLit cs xs else none

/-- Consume the optional greedy `\w+:` namespace-prefix group: drop the
maximal word run and a following `:` when both are present. -/
def consumeNsPart (l : List Char) : List Char :=
  let w := l.takeWhile isWordChar
  let r := l.drop w.length
  if w ≠ [] ∧ r.head? = some ':' then r.tail else l

/-- The literal element-name part of the pattern with its closing `>`. -/
def poTag : List Char := "DistiPONumber>".data

/-- Attempt the whole pattern at the current position; on success, return
the `([^<]+)` capture. -/
def matchAt : List Char → Option String
  | '<' :: rest =>
    match dropLit poTag (consumeNsPart rest) with
    | none => none
    | some r1 =>
      let txt := r1.takeWhile (fun c => c ≠ '<')
      if txt = [] then none
      else
        match r1.drop txt.length with
        | '<' :: '/' :: r2 =>
          match dropLit poTag (consumeNsPart r2) with
          | some _ => some ⟨txt⟩
          | none => none
        | _ => none
  | _ => none

/-- Model of `re.search`: try the pattern at each position, leftmost first. -/
def searchPO : List Char → Option String
  | [] => none
  | c :: rest =>
    match matchAt (c :: rest) with
    | some t => some t
    | none => searchPO rest

/-- Model of `APIClient.extract_po_number` (`api_client.py` lines 293–314). -/
def extract_po_number (s : String) : Option String :=
  searchPO s.data

theorem dropLit_eq : ∀ (lit l r : List Char), dropLit lit l = some r → l = lit ++ r := by
  intro lit
  induction lit with
  | nil =>
    intro l r h
    simp only [dropLit, Option.some.injEq] at h
    simp [h]
  | cons c cs ih =>
    intro l r h
    cases l with
    | nil => cases h
    | cons x xs =>
      simp only [dropLit] at h
      by_cases hcx : c = x
      · rw [if_pos hcx] at h
        rw [List.cons_append, ← hcx, ih xs r h]
      · rw [if_neg hcx] at h
        cases h

theorem dropLit_append : ∀ (lit l : List Char), dropLit lit (lit ++ l) = some l := by
  intro lit
  induction lit with
  | nil => intro l; rfl
  | cons c cs ih => intro l; simp [dropLit, ih]

theorem consumeNsPart_suffix (l : List Char) : consumeNsPart l <:+ l := by
  unfold consumeNsPart
  by_cases h : l.takeWhile isWordChar ≠ [] ∧ (l.drop (l.takeWhile isWordChar).length).head? = some ':'
  · rw [if_pos h]
    exact (List.tail_suffix _).trans (List.drop_suffix _ l)
  · rw [if_neg h]

theorem infix_of_suff {l m : List Char} (h : l <:+ m) : l <:+: m := by
  obtain ⟨u, hu⟩ := h
  exact ⟨u, [], by simp [hu]⟩

theorem infix_extend_cons {l rest : List Char} (c : Char) (h : l <:+: rest) :
    l <:+: c :: rest := by
  obtain ⟨u, v, huv⟩ := h
  exact ⟨c :: u, v, by simp [huv]⟩

theorem matchAt_has_name (l : List Char) (t : String) (h : matchAt l = some t) :
    ("DistiPONumber".data : List Char) <:+: l := by
  cases l with
  | nil => cases h
  | cons c rest =>
    by_cases hc : c = '<'
    · subst hc
      simp only [matchAt] at h
      cases hdl : dropLit poTag (consumeNsPart rest) with
      | none => rw [hdl] at h; cases h
      | some r1 =>
        have h1 : consumeNsPart rest = poTag ++ r1 := dropLit_eq _ _ _ hdl
        have h2 : poTag ++ r1 <:+ rest := h1 ▸ consumeNsPart_suffix rest
        have hpt : poTag = "DistiPONumber".data ++ ['>'] := by decide
        have h3 : ("DistiPONumber".data : List Char) <:+: poTag ++ r1 :=
          ⟨[], '>' :: r1, by rw [hpt]; simp⟩
        exact infix_extend_cons _ (h3.trans (infix_of_suff h2))
    · rw [show matchAt (c :: rest) = none from by
        unfold matchAt
        split
        next heq => rw [List.cons.injEq] at heq; exact absurd heq.1 hc
        next => rfl] at h
      cases h

theorem searchPO_has_name : ∀ (l : List Char) (t : String), searchPO l = some t →
    ("DistiPONumber".data : List Char) <:+: l := by
  intro l
  induction l with
  | nil => intro t h; cases h
  | cons c rest ih =>
    intro t h
    simp only [searchPO] at h
    cases hm : matchAt (c :: rest) with
    | some u => exact matchAt_has_name _ u hm
    | none =>
      rw [hm] at h
      exact infix_extend_cons c (ih t h)

theorem consumeNsPart_word_stop (xs : List Char) (y : Char) (rest : List Char)
    (hxs : ∀ c ∈ xs, isWordChar c = true) (hy : isWordChar y = false) :
    consumeNsPart (xs ++ y :: rest) = if xs ≠ [] ∧ y = ':' then rest else xs ++ y :: rest := by
  have htw : (xs ++ y :: rest).takeWhile isWordChar = xs := by
    rw [List.takeWhile_append_of_pos hxs, List.takeWhile_cons_of_neg (by simp [hy])]
    simp
  simp only [consumeNsPart, htw, List.drop_left]
  by_cases hxe : xs = []
  · subst hxe
    simp
  · by_cases hyc : y = ':'
    · subst hyc
      rw [if_pos ⟨hxe, rfl⟩, if_pos ⟨hxe, rfl⟩]
      rfl
    · rw [if_neg (by simp [hyc]), if_neg (by simp [hyc])]

theorem takeWhile_ne_stop (txt z : List Char) (h : ∀ c ∈ txt, c ≠ '<') :
    (txt ++ '<' :: z).takeWhile (fun c => c ≠ '<') = txt ∧
    (txt ++ '<' :: z).drop txt.length = '<' :: z := by
  constructor
  · rw [List.takeWhile_append_of_pos (by intro a ha; simpa using h a ha),
      List.takeWhile_cons_of_neg (by simp)]
    simp
  · exact List.drop_left txt _

/-- The namespace-prefix part of a qualified tag: empty, or the prefix
followed by `:`. -/
def nsPart (p : String) : List Char := if p = "" then [] else p.data ++ [':']

theorem consumeNsPart_tag (p : String)
    (hp : p = "" ∨ (p ≠ "" ∧ ∀ c ∈ p.data, isWordChar c = true)) (X : List Char) :
    consumeNsPart (nsPart p ++ poTag ++ X) = poTag ++ X := by
  have hpt : poTag = "DistiPONumber".data ++ ['>'] := by decide
  rcases hp with hpe | ⟨hpne, hpw⟩
  · rw [hpe]
    have h13 : poTag ++ X = "DistiPONumber".data ++ '>' :: X := by
      rw [hpt]
      simp
    rw [show nsPart "" = [] from rfl, List.nil_append, h13,
      consumeNsPart_word_stop ("DistiPONumber".data) '>' X (by decide) (by decide),
      if_neg (by simp), ← h13]
  · have hpd : p.data ≠ [] := by
      intro hd
      apply hpne
      cases p
      simp only at hd
      rw [hd]
    have h14 : nsPart p ++ poTag ++ X = p.data ++ ':' :: (poTag ++ X) := by
      rw [show nsPart p = p.data ++ [':'] from by simp [nsPart, hpne]]
      simp
    rw [h14, consumeNsPart_word_stop p.data ':' (poTag ++ X) hpw (by decide),
      if_pos ⟨hpd, rfl⟩]

theorem matchAt_po (p t : String) (w : List Char)
    (hp : p = "" ∨ (p ≠ "" ∧ ∀ c ∈ p.data, isWordChar c = true))
    (ht : t.data ≠ []) (htlt : ∀ c ∈ t.data, c ≠ '<') :
    matchAt ('<' :: (nsPart p ++ poTag ++
        (t.data ++ ('<' :: '/' :: (nsPart p ++ (poTag ++ w)))))) = some t := by
  obtain ⟨htk, hdr⟩ := takeWhile_ne_stop t.data ('/' :: (nsPart p ++ (poTag ++ w))) htlt
  have hct : consumeNsPart (nsPart p ++ (poTag ++ w)) = poTag ++ w := by
    rw [(List.append_assoc (nsPart p) poTag w).symm]
    exact consumeNsPart_tag p hp w
  have hdl2 : dropLit poTag (poTag ++ w) = some w := dropLit_append poTag w
  simp only [matchAt, consumeNsPart_tag p hp, dropLit_append, htk, hdr, hct, hdl2]
  rw [if_neg ht]

/-- Shapes the optional greedy `\w+:` group can leave consumed together
with the element literal: nothing, or a non-empty word run plus `:`. -/
def IsNsPart (w : List Char) : Prop :=
  w = [] ∨ ∃ run, run ≠ [] ∧ (∀ c ∈ run, isWordChar c = true) ∧ w = run ++ [':']

theorem isNsPart_no_lt (w : List Char) (h : IsNsPart w) : ∀ ch ∈ w, ch ≠ '<' := by
  rcases h with rfl | ⟨run, _, hrw, rfl⟩
  · intro ch hch
    cases hch
  · intro ch hch
    rcases List.mem_append.mp hch with h1 | h2
    · have hw := hrw ch h1
      intro hlt
      subst hlt
      exact absurd hw (by decide)
    · have hcol : ch = ':' := by simpa using h2
      subst hcol
      decide

theorem consumeNsPart_cases (l : List Char) :
    consumeNsPart l = l ∨
    ∃ run, run ≠ [] ∧ (∀ c ∈ run, isWordChar c = true) ∧
      l = run ++ ':' :: consumeNsPart l := by
  by_cases h : l.takeWhile isWordChar ≠ [] ∧
      (l.drop (l.takeWhile isWordChar).length).head? = some ':'
  · right
    obtain ⟨rest, hrest⟩ := (List.takeWhile_prefix isWordChar : l.takeWhile isWordChar <+: l)
    have hdrop : l.drop (l.takeWhile isWordChar).length = rest := by
      have hd : List.drop (l.takeWhile isWordChar).length
          (l.takeWhile isWordChar ++ rest) = rest := List.drop_left' rfl
      rw [hrest] at hd
      exact hd
    have hcons : consumeNsPart l = rest.tail := by
      simp only [consumeNsPart]
      rw [if_pos h, hdrop]
    cases rest with
    | nil =>
      rw [hdrop] at h
      simp at h
    | cons r0 rs =>
      have hr0 : r0 = ':' := by
        rw [hdrop] at h
        simpa using h.2
      refine ⟨l.takeWhile isWordChar, h.1, fun c hc => List.mem_takeWhile_imp hc, ?_⟩
      rw [hcons]
      conv_lhs => rw [← hrest]
      rw [hr0]
      rfl
  · left
    simp only [consumeNsPart]
    rw [if_neg h]

theorem dropLit_tag_decomp (X r1 : List Char)
    (h : dropLit poTag (consumeNsPart X) = some r1) :
    ∃ w, IsNsPart w ∧ X = w ++ (poTag ++ r1) := by
  have heq : consumeNsPart X = poTag ++ r1 := dropLit_eq _ _ _ h
  rcases consumeNsPart_cases X with hid | ⟨run, hrne, hrw, hrun⟩
  · exact ⟨[], Or.inl rfl, by rw [List.nil_append, ← heq, hid]⟩
  · refine ⟨run ++ [':'], Or.inr ⟨run, hrne, hrw, rfl⟩, ?_⟩
    rw [hrun, heq]
    simp [List.append_assoc]

theorem prefix_stops_before : ∀ (P u z : List Char),
    (∀ ch ∈ P, ch ≠ '<') → P <+: u ++ '<' :: z → P <+: u := by
  intro P
  induction P with
  | nil =>
    intro u z _ _
    exact List.nil_prefix
  | cons p P' ih =>
    intro u z hP h
    cases u with
    | nil =>
      rw [List.nil_append, List.cons_prefix_cons] at h
      exact absurd h.1 (hP p (by simp))
    | cons d u' =>
      rw [List.cons_append, List.cons_prefix_cons] at h
      rw [List.cons_prefix_cons]
      exact ⟨h.1, ih u' z (fun ch hch => hP ch (by simp [hch])) h.2⟩

theorem matchAt_cross (u z : List Char) (t : String)
    (h : matchAt (u ++ '<' :: z) = some t) (hu : u ≠ []) :
    ("DistiPONumber".data : List Char) <:+: u := by
  cases u with
  | nil => exact absurd rfl hu
  | cons c u' =>
    rw [List.cons_append] at h
    by_cases hc : c = '<'
    · subst hc
      simp only [matchAt] at h
      cases hdl : dropLit poTag (consumeNsPart (u' ++ '<' :: z)) with
      | none =>
        rw [hdl] at h
        simp at h
      | some r1 =>
        obtain ⟨w, hw, hweq⟩ := dropLit_tag_decomp _ _ hdl
        have hpre : (w ++ poTag) <+: u' ++ '<' :: z := by
          refine ⟨r1, ?_⟩
          rw [hweq]
          simp [List.append_assoc]
        have hnolt : ∀ ch ∈ w ++ poTag, ch ≠ '<' := by
          intro ch hch
          rcases List.mem_append.mp hch with h1 | h2
          · exact isNsPart_no_lt w hw ch h1
          · have hpo : ∀ ch ∈ poTag, ch ≠ '<' := by decide
            exact hpo ch h2
        obtain ⟨v, hv⟩ := prefix_stops_before _ _ _ hnolt hpre
        have hpt : poTag = "DistiPONumber".data ++ ['>'] := by decide
        refine infix_extend_cons '<' ⟨w, '>' :: v, ?_⟩
        rw [← hv, hpt]
        simp [List.append_assoc]
    · rw [show matchAt (c :: (u' ++ '<' :: z)) = none from by
        unfold matchAt
        split
        next heq =>
          rw [List.cons.injEq] at heq
          exact absurd heq.1 hc
        next => rfl] at h
      cases h

theorem searchPO_prepend : ∀ (a z : List Char),
    ¬ (("DistiPONumber".data : List Char) <:+: a) →
    searchPO (a ++ '<' :: z) = searchPO ('<' :: z) := by
  intro a
  induction a with
  | nil =>
    intro z _
    rfl
  | cons c a' ih =>
    intro z hnc
    have hmc : matchAt ((c :: a') ++ '<' :: z) = none := by
      cases hm : matchAt ((c :: a') ++ '<' :: z) with
      | none => rfl
      | some u => exact absurd (matchAt_cross (c :: a') z u hm (by simp)) hnc
    rw [List.cons_append] at hmc
    rw [List.cons_append]
    simp only [searchPO, hmc]
    exact ih z (fun hin => hnc (infix_extend_cons c hin))

theorem takeWhile_drop_split (p : Char → Bool) (l : List Char) :
    l = l.takeWhile p ++ l.drop (l.takeWhile p).length := by
  obtain ⟨rest, hrest⟩ := (List.takeWhile_prefix p : l.takeWhile p <+: l)
  have hdrop : l.drop (l.takeWhile p).length = rest := by
    have hd : List.drop (l.takeWhile p).length (l.takeWhile p ++ rest) = rest :=
      List.drop_left' rfl
    rw [hrest] at hd
    exact hd
  rw [hdrop, hrest]

theorem matchAt_sound (l : List Char) (t : String) (h : matchAt l = some t) :
    ∃ w1 w2 rest,
      l = '<' :: (w1 ++ (poTag ++ (t.data ++ '<' :: '/' :: (w2 ++ (poTag ++ rest))))) ∧
      IsNsPart w1 ∧ IsNsPart w2 ∧ t.data ≠ [] ∧ ∀ c ∈ t.data, c ≠ '<' := by
  cases l with
  | nil => simp [matchAt] at h
  | cons c rest0 =>
    by_cases hc : c = '<'
    · subst hc
      simp only [matchAt] at h
      cases hdl : dropLit poTag (consumeNsPart rest0) with
      | none =>
        rw [hdl] at h
        simp at h
      | some r1 =>
        rw [hdl] at h
        obtain ⟨w1, hw1, hw1eq⟩ := dropLit_tag_decomp _ _ hdl
        by_cases hne : r1.takeWhile (fun c => c ≠ '<') = []
        · simp only [if_pos hne] at h
          simp at h
        · simp only [if_neg hne] at h
          split at h
          next r2 heq =>
            cases hdl2 : dropLit poTag (consumeNsPart r2) with
            | none =>
              rw [hdl2] at h
              simp at h
            | some r3 =>
              rw [hdl2] at h
              have htxt : r1.takeWhile (fun c => c ≠ '<') = t.data :=
                congrArg String.data (Option.some.inj h)
              obtain ⟨w2, hw2, hw2eq⟩ := dropLit_tag_decomp _ _ hdl2
              have hr1split : r1 = t.data ++ ('<' :: '/' :: r2) := by
                conv_lhs => rw [takeWhile_drop_split (fun c => c ≠ '<') r1]
                rw [heq, htxt]
              refine ⟨w1, w2, r3, ?_, hw1, hw2, htxt ▸ hne, ?_⟩
              · rw [hw1eq, hr1split, hw2eq]
              · intro ch hch
                have hmem : ch ∈ r1.takeWhile (fun c => c ≠ '<') := htxt ▸ hch
                simpa using List.mem_takeWhile_imp hmem
          next => simp at h
    · rw [show matchAt (c :: rest0) = none from by
        unfold matchAt
        split
        next heq =>
          rw [List.cons.injEq] at heq
          exact absurd heq.1 hc
        next => rfl] at h
      cases h

theorem searchPO_sound : ∀ (l : List Char) (t : String), searchPO l = some t →
    ∃ a w1 w2 rest,
      l = a ++ '<' :: (w1 ++ (poTag ++ (t.data ++ '<' :: '/' :: (w2 ++ (poTag ++ rest))))) ∧
      IsNsPart w1 ∧ IsNsPart w2 ∧ t.data ≠ [] ∧ ∀ c ∈ t.data, c ≠ '<' := by
  intro l
  induction l with
  | nil =>
    intro t h
    cases h
  | cons c rest0 ih =>
    intro t h
    simp only [searchPO] at h
    cases hm : matchAt (c :: rest0) with
    | some u =>
      rw [hm] at h
      have hut : u = t := Option.some.inj h
      subst hut
      obtain ⟨w1, w2, rest, heq, h1, h2, h3, h4⟩ := matchAt_sound (c :: rest0) u hm
      refine ⟨[], w1, w2, rest, ?_, h1, h2, h3, h4⟩
      rw [List.nil_append]
      exact heq
    | none =>
      rw [hm] at h
      obtain ⟨a, w1, w2, rest, heq, h1, h2, h3, h4⟩ := ih t h
      refine ⟨c :: a, w1, w2, rest, ?_, h1, h2, h3, h4⟩
      rw [List.cons_append, heq]

/-- Presence of a `DistiPONumber` element occurrence as the regex construes
one: anywhere in the document, an opening tag with exactly-spelled name
under an optional word-character prefix, non-empty text without `<`, and a
closing tag of the same shape. -/
def HasPOElem (s : String) : Prop :=
  ∃ (a w1 txt w2 rest : List Char),
    s.data = a ++ '<' :: (w1 ++ (poTag ++ (txt ++ '<' :: '/' :: (w2 ++ (poTag ++ rest))))) ∧
    IsNsPart w1 ∧ IsNsPart w2 ∧ txt ≠ [] ∧ ∀ c ∈ txt, c ≠ '<'

/-- A purchase-order document consisting of one `DistiPONumber` element
with optional namespace prefix `p` (on both tags) and text `t`. -/
def mkPODoc (p t : String) : String :=
  "<" ++ (if p = "" then "" else p ++ ":") ++ "DistiPONumber>" ++ t
    ++ "</" ++ (if p = "" then "" else p ++ ":") ++ "DistiPONumber>"

/-- **C7 counterexample.** The regex is compiled without `re.IGNORECASE`,
so `extract_po_number` is case-sensitive: the lowercase spelling of the
element yields `none` while the exact spelling yields the text, refuting
the claimed case-insensitive matching.  The further conjuncts force the
amendments to "regardless of any namespace prefix" and "returns the
element's exact text content when present": a prefix with a non-word
character (`a-b`, a legal XML name) yields `none`, and a present element
with empty text yields `none` rather than its (empty) text content. -/
theorem claim7_counterexample :
    extract_po_number "<distiponumber>PO1</distiponumber>" = none ∧
    extract_po_number "<DistiPONumber>PO1</DistiPONumber>" = some "PO1" ∧
    extract_po_number "<a-b:DistiPONumber>PO1</a-b:DistiPONumber>" = none ∧
    extract_po_number "<DistiPONumber></DistiPONumber>" = none := by
  refine ⟨by decide, by decide, by decide, by decide⟩

/-- **C7 amended.** `extract_po_number` never raises (it is a total
function into `Option`).  It returns `none` whenever the input contains no
`DistiPONumber` element occurrence as the regex construes one — exact
case-sensitive spelling, an optional word-character namespace prefix on
each tag, and non-empty text without a raw `<` (which XML text cannot
contain anyway) — covering in particular inputs where the element name
occurs only as a substring.  And whenever such an element is present, with
no earlier occurrence of the element name before it, it returns that
element's exact text content, in arbitrary surrounding context (such as
the SOAP-wrapped payload the pipeline feeds this function). -/
theorem claim7_amended :
    (∀ s : String, ¬ HasPOElem s → extract_po_number s = none) ∧
    (∀ a b p t : String,
      ¬ StrContains a "DistiPONumber" →
      (p = "" ∨ (p ≠ "" ∧ ∀ c ∈ p.data, isWordChar c = true)) →
      t.data ≠ [] → (∀ c ∈ t.data, c ≠ '<') →
      extract_po_number (a ++ mkPODoc p t ++ b) = some t) := by
  constructor
  · intro s hno
    cases he : extract_po_number s with
    | none => rfl
    | some u =>
      obtain ⟨a, w1, w2, rest, heq, h1, h2, h3, h4⟩ := searchPO_sound s.data u he
      exact absurd ⟨a, w1, u.data, w2, rest, heq, h1, h2, h3, h4⟩ hno
  · intro a b p t hna hp ht htlt
    have hdata : (a ++ mkPODoc p t ++ b).data =
        a.data ++ '<' :: (nsPart p ++ poTag ++
          (t.data ++ ('<' :: '/' :: (nsPart p ++ (poTag ++ b.data))))) := by
      by_cases hpe : p = ""
      · simp [mkPODoc, nsPart, hpe, poTag, List.append_assoc]
      · simp [mkPODoc, nsPart, hpe, poTag, List.append_assoc]
    unfold extract_po_number
    rw [hdata, searchPO_prepend a.data _ hna]
    simp only [searchPO, matchAt_po p t b.data hp ht htlt]

/-- **C7 amended witness.** An input with no element occurrence (not even
a `<`) yields `none`; an exactly-spelled, `ns`-prefixed element nested
inside a SOAP body yields its text. -/
theorem claim7_amended_witness :
    extract_po_number "PO number missing" = none ∧
    extract_po_number ("<soapenv:Body>" ++ mkPODoc "ns" "PO123" ++ "</soapenv:Body>") =
      some "PO123" :=
  ⟨claim7_amended.1 "PO number missing"
    (fun h => by
      obtain ⟨a, w1, txt, w2, rest, heq, _⟩ := h
      have hlt : ('<' : Char) ∈ ("PO number missing" : String).data := by
        rw [heq]
        simp
      exact absurd hlt (by decide)),
   claim7_amended.2 "<soapenv:Body>" "</soapenv:Body>" "ns" "PO123"
     (by decide) (Or.inr ⟨by decide, by decide⟩) (by decide) (by decide)⟩

end NutanixClient
